import Mathlib

/-!
Shallow embedding of the brainstore-benchmark trace replay scripts
(src/load_braintrust.py and src/load_langsmith.py): JSONL record parsing,
parent/child tree indexing, recursive span replay, and flush cadence.

Python dictionaries are modelled as association lists with unique keys
(first-match lookup, in-place update).  The JSON payloads `input` and
`output` are uninterpreted by the scripts and are modelled as strings; `metadata`
is a string-keyed mapping.  A record's `span_parents` key may be absent
(`none`) or present (`some ps`); fallible dictionary accesses are modelled
with `Except String` (the error standing for a Python KeyError), and the
unbounded recursion of the span replay is modelled with explicit fuel
(`none` standing for a computation that has not yet terminated).
-/

namespace BrainstoreBench

/-- Association-list lookup, modelling a Python dict read `d[k]` /
`d.get(k)` (first binding for the key wins; `dictSet` keeps keys unique). -/
def dlookup {α : Type} : List (String × α) → String → Option α
  | [], _ => none
  | (k, v) :: rest, key => if k = key then some v else dlookup rest key

/-- Python dict assignment `d[k] = v`: replaces the value in place when the
key exists, otherwise appends a new binding. -/
def dictSet {α : Type} : List (String × α) → String → α → List (String × α)
  | [], k, v => [(k, v)]
  | (k0, v0) :: rest, k, v =>
    if k0 = k then (k0, v) :: rest else (k0, v0) :: dictSet rest k v

/-- Python `d.get(k, dflt)`. -/
def dictGetD {α : Type} (d : List (String × α)) (k : String) (dflt : α) : α :=
  (dlookup d k).getD dflt

/-- One parsed JSONL trace record (the fields the scripts access).
`span_parents = none` models a record whose JSON object has no
`span_parents` key; `name` is the record's `span_attributes.name`. -/
structure TraceRecord where
  id : String
  span_id : String
  span_parents : Option (List String)
  name : String
  input : String
  output : String
  metadata : List (String × String)
deriving DecidableEq, Repr

/-- Constant ROOT_SPAN_NAME of src/load_braintrust.py. -/
def ROOT_SPAN_NAME : String := "Chat Pipeline"

/-- Constant DEFAULT_MODEL of src/load_braintrust.py. -/
def DEFAULT_MODEL : String := "gpt-4o"

/-- Constant ROOT_RUN_NAME of src/load_langsmith.py. -/
def ROOT_RUN_NAME : String := "Chat Pipeline"

abbrev ChildMap := List (String × List String)

abbrev TreeMap := List (String × TraceRecord)

/-- State of the parent/child indexing loop: the `children` dict, the
`roots` list, and the processed `rows` (with the in-place
`del row["span_parents"]` mutations applied). -/
structure IndexState where
  children : ChildMap
  roots : List String
  rows : List TraceRecord
deriving DecidableEq, Repr

/-- Models `children[parent] = children.get(parent, []) + [cid]`: the body
of the inner `for parent in row["span_parents"]` loop of both scripts
(`if parent not in children: children[parent] = []` then append). -/
def addChild : ChildMap → String → String → ChildMap
  | [], p, cid => [(p, [cid])]
  | (k, v) :: rest, p, cid =>
    if k = p then (k, v ++ [cid]) :: rest else (k, v) :: addChild rest p cid

/-- Registers `cid` under every parent in `ps`, in declared order. -/
def registerParents (ch : ChildMap) (ps : List String) (cid : String) : ChildMap :=
  ps.foldl (fun c p => addChild c p cid) ch

/-- One step of the row-indexing loop of src/load_braintrust.py
(lines 168-176).  With `flatten = false` the condition
`row["span_parents"] and len(row["span_parents"]) > 0` reads the key
(KeyError when absent); the else branch runs `del row["span_parents"]`
unguarded, which is a KeyError when the key is absent (reachable with
`flatten = true`, where the condition short-circuits without the read). -/
def btIndexStep (flatten : Bool) (st : IndexState) (row : TraceRecord) :
    Except String IndexState :=
  if flatten then
    match row.span_parents with
    | none => Except.error "KeyError: span_parents"
    | some _ =>
      Except.ok { st with roots := st.roots ++ [row.id],
                          rows := st.rows ++ [{ row with span_parents := none }] }
  else
    match row.span_parents with
    | none => Except.error "KeyError: span_parents"
    | some ps =>
      if ps.length > 0 then
        Except.ok { st with children := registerParents st.children ps row.id,
                            rows := st.rows ++ [row] }
      else
        Except.ok { st with roots := st.roots ++ [row.id],
                            rows := st.rows ++ [{ row with span_parents := none }] }

/-- One step of the row-indexing loop of src/load_langsmith.py
(lines 163-172).  Identical to the Braintrust step except that the
deletion in the else branch is guarded by `if "span_parents" in row`,
so a record without the key is a plain root under `flatten = true`. -/
def lsIndexStep (flatten : Bool) (st : IndexState) (row : TraceRecord) :
    Except String IndexState :=
  if flatten then
    Except.ok { st with roots := st.roots ++ [row.id],
                        rows := st.rows ++
                          [match row.span_parents with
                           | none => row
                           | some _ => { row with span_parents := none }] }
  else
    match row.span_parents with
    | none => Except.error "KeyError: span_parents"
    | some ps =>
      if ps.length > 0 then
        Except.ok { st with children := registerParents st.children ps row.id,
                            rows := st.rows ++ [row] }
      else
        Except.ok { st with roots := st.roots ++ [row.id],
                            rows := st.rows ++ [{ row with span_parents := none }] }

def emptyIndex : IndexState := ⟨[], [], []⟩

/-- Runs an indexing step over the rows in input order, stopping at the
first uncaught exception (neither script catches KeyError here). -/
def indexFold (step : IndexState → TraceRecord → Except String IndexState) :
    IndexState → List TraceRecord → Except String IndexState
  | st, [] => Except.ok st
  | st, row :: rest =>
    match step st row with
    | Except.error e => Except.error e
    | Except.ok st2 => indexFold step st2 rest

/-- The full tree-indexing pass of src/load_braintrust.py. -/
def btIndexF (flatten : Bool) (rows : List TraceRecord) : Except String IndexState :=
  indexFold (btIndexStep flatten) emptyIndex rows

/-- The full tree-indexing pass of src/load_langsmith.py. -/
def lsIndexF (flatten : Bool) (rows : List TraceRecord) : Except String IndexState :=
  indexFold (lsIndexStep flatten) emptyIndex rows

/-- The id-keyed lookup dict `tree[row["id"]] = row` (both scripts).  The
dict entries alias the row objects, so the dict seen by the replay loop is
the one built from the rows as mutated by the indexing loop; building it
from the post-indexing rows reproduces exactly that aliasing (last write
to a given id wins, as in Python). -/
def buildTree (rows : List TraceRecord) : TreeMap :=
  rows.foldl (fun t r => dictSet t r.id r) []

/-- One backend-sink event, as observed by the replay engine:
opening a unit of work, attaching a root's payload (with metadata),
attaching a child's payload, closing a unit, or a flush request. -/
inductive Ev where
  | openSpan : String → Ev
  | logRoot : String → String → List (String × String) → Ev
  | logChild : String → String → Ev
  | closeSpan : String → Ev
  | flushEv : Ev
deriving DecidableEq, Repr

/-- Sequences the results of the child-emission calls made by a `for`
loop: the first non-termination or uncaught exception aborts the rest,
otherwise the emitted events are concatenated in order. -/
def seqEvs : List (Option (Except String (List Ev))) → Option (Except String (List Ev))
  | [] => some (Except.ok [])
  | none :: _ => none
  | some (Except.error e) :: _ => some (Except.error e)
  | some (Except.ok evs) :: rest =>
    match seqEvs rest with
    | none => none
    | some (Except.error e) => some (Except.error e)
    | some (Except.ok evs2) => some (Except.ok (evs ++ evs2))

/-- Function `log_child_span` of src/load_braintrust.py (lines 57-80) and the
structurally identical `log_child_run` of src/load_langsmith.py
(lines 55-79): look the node up in `tree` (KeyError when absent), open a
nested unit named by the node's `span_attributes.name`, attach its
input/output, recurse into `children.get(row["span_id"], [])` in order,
then close the unit.  `fuel` bounds the recursion depth; `none` models a
recursion that has not terminated within the given fuel. -/
def log_child_span (ch : ChildMap) (tree : TreeMap) :
    Nat → String → Option (Except String (List Ev))
  | 0, _ => none
  | fuel + 1, nodeId =>
    match dlookup tree nodeId with
    | none => some (Except.error "KeyError: node")
    | some row =>
      match seqEvs ((dictGetD ch row.span_id []).map
          (fun c => log_child_span ch tree fuel c)) with
      | none => none
      | some (Except.error e) => some (Except.error e)
      | some (Except.ok body) =>
        some (Except.ok (Ev.openSpan row.name :: Ev.logChild row.input row.output ::
          (body ++ [Ev.closeSpan row.name])))

/-- The per-root body of the replay loop of src/load_braintrust.py
(lines 188-199): open a top-level span named ROOT_SPAN_NAME, inject
`row["metadata"]["model"] = DEFAULT_MODEL` (an in-place mutation of the
root's record, visible through the `tree` dict), attach
input/output/metadata, recurse into the children, close the span.
Returns the emitted events and the tree after the mutation. -/
def btEmitRoot (ch : ChildMap) (fuel : Nat) (tree : TreeMap) (rootId : String) :
    Option (Except String (List Ev × TreeMap)) :=
  match dlookup tree rootId with
  | none => some (Except.error "KeyError: root")
  | some row =>
    let md := dictSet row.metadata "model" DEFAULT_MODEL
    let row2 := { row with metadata := md }
    let tree2 := dictSet tree rootId row2
    match seqEvs ((dictGetD ch row.span_id []).map
        (fun c => log_child_span ch tree2 fuel c)) with
    | none => none
    | some (Except.error e) => some (Except.error e)
    | some (Except.ok body) =>
      some (Except.ok (Ev.openSpan ROOT_SPAN_NAME ::
        Ev.logRoot row.input row.output md ::
        (body ++ [Ev.closeSpan ROOT_SPAN_NAME]), tree2))

/-- The per-root body of the replay loop of src/load_langsmith.py
(lines 184-200): create a top-level RunTree named ROOT_RUN_NAME with the
root's input/output/metadata as they stand (no injection, no mutation),
recurse into the children, then end and post the run. -/
def lsEmitRoot (ch : ChildMap) (fuel : Nat) (tree : TreeMap) (rootId : String) :
    Option (Except String (List Ev × TreeMap)) :=
  match dlookup tree rootId with
  | none => some (Except.error "KeyError: root")
  | some row =>
    match seqEvs ((dictGetD ch row.span_id []).map
        (fun c => log_child_span ch tree fuel c)) with
    | none => none
    | some (Except.error e) => some (Except.error e)
    | some (Except.ok body) =>
      some (Except.ok (Ev.openSpan ROOT_RUN_NAME ::
        Ev.logRoot row.input row.output row.metadata ::
        (body ++ [Ev.closeSpan ROOT_RUN_NAME]), tree))

/-- The interim-flush condition of both scripts:
`args.batch_size and (idx + 1) % args.batch_size == 0` (a batch size of
`None`, or the falsy 0, never triggers). -/
def flushCond (batch : Option Nat) (n : Nat) : Bool :=
  match batch with
  | none => false
  | some b => b != 0 && n % b == 0

/-- One iteration's `for idx, root in enumerate(roots)` loop, shared in
shape by both scripts and parameterized by the per-root emitter: emit the
root's tree, then append a flush request when the interim condition holds
for `idx + 1`. -/
def replayIterAux
    (emitR : TreeMap → String → Option (Except String (List Ev × TreeMap)))
    (batch : Option Nat) : Nat → List String → TreeMap →
    Option (Except String (List Ev × TreeMap))
  | _, [], tree => some (Except.ok ([], tree))
  | idx, r :: rest, tree =>
    match emitR tree r with
    | none => none
    | some (Except.error e) => some (Except.error e)
    | some (Except.ok (evs, tree2)) =>
      match replayIterAux emitR batch (idx + 1) rest tree2 with
      | none => none
      | some (Except.error e) => some (Except.error e)
      | some (Except.ok (evs2, tree3)) =>
        some (Except.ok (evs ++
          (if flushCond batch (idx + 1) then [Ev.flushEv] else []) ++ evs2, tree3))

/-- The `for i in range(args.iterations)` loop of src/load_braintrust.py
(lines 186-207): each iteration replays every root with batched interim
flushes; no flush is issued between iterations. -/
def btReplayAux (ch : ChildMap) (batch : Option Nat) (fuel : Nat)
    (roots : List String) : Nat → TreeMap → Option (Except String (List Ev × TreeMap))
  | 0, tree => some (Except.ok ([], tree))
  | n + 1, tree =>
    match replayIterAux (btEmitRoot ch fuel) batch 0 roots tree with
    | none => none
    | some (Except.error e) => some (Except.error e)
    | some (Except.ok (evs, tree2)) =>
      match btReplayAux ch batch fuel roots n tree2 with
      | none => none
      | some (Except.error e) => some (Except.error e)
      | some (Except.ok (evs2, tree3)) => some (Except.ok (evs ++ evs2, tree3))

/-- The whole replay of src/load_braintrust.py: all iterations, then the
single unconditional `bt_logger.flush()` of line 210, issued once after
the last iteration. -/
def btReplay (ch : ChildMap) (batch : Option Nat) (fuel iters : Nat)
    (roots : List String) (tree : TreeMap) :
    Option (Except String (List Ev × TreeMap)) :=
  match btReplayAux ch batch fuel roots iters tree with
  | some (Except.ok (evs, tree2)) => some (Except.ok (evs ++ [Ev.flushEv], tree2))
  | other => other

/-- The `for iteration in range(args.iterations)` loop of
src/load_langsmith.py (lines 181-211): each iteration replays every root
with batched interim flushes and then issues the unconditional
`client.flush()` of line 207 before the next iteration starts. -/
def lsReplayAux (ch : ChildMap) (batch : Option Nat) (fuel : Nat)
    (roots : List String) : Nat → TreeMap → Option (Except String (List Ev × TreeMap))
  | 0, tree => some (Except.ok ([], tree))
  | n + 1, tree =>
    match replayIterAux (lsEmitRoot ch fuel) batch 0 roots tree with
    | none => none
    | some (Except.error e) => some (Except.error e)
    | some (Except.ok (evs, tree2)) =>
      match lsReplayAux ch batch fuel roots n tree2 with
      | none => none
      | some (Except.error e) => some (Except.error e)
      | some (Except.ok (evs2, tree3)) =>
        some (Except.ok (evs ++ [Ev.flushEv] ++ evs2, tree3))

/-- The whole replay of src/load_langsmith.py: there is no extra flush
after the last iteration's own end-of-iteration flush. -/
def lsReplay (ch : ChildMap) (batch : Option Nat) (fuel iters : Nat)
    (roots : List String) (tree : TreeMap) :
    Option (Except String (List Ev × TreeMap)) :=
  lsReplayAux ch batch fuel roots iters tree

/-- Number of flush requests in an event list. -/
def countFlush (evs : List Ev) : Nat :=
  evs.countP (fun e => e == Ev.flushEv)

/-- Number of interim flushes requested by one iteration that replays `n`
roots starting at index `idx`. -/
def interimCount (batch : Option Nat) : Nat → Nat → Nat
  | _, 0 => 0
  | idx, n + 1 =>
    (if flushCond batch (idx + 1) then 1 else 0) + interimCount batch (idx + 1) n

/-- One input line of the JSONL trace file, classified by whether
`json.loads` succeeds on it. -/
inductive Line where
  | malformed : Line
  | record : TraceRecord → Line
deriving DecidableEq, Repr

/-- Python truthiness of `args.limit` in `if args.limit and i >= args.limit`. -/
def truthyLimit : Option Nat → Bool
  | none => false
  | some l => l != 0

/-- The JSONL parsing loop of both scripts (braintrust lines 144-152,
langsmith lines 142-150): enumerate the lines; break once the (truthy)
limit is reached; append the record when the line parses, count a warning
and continue when it does not.  Returns the parsed rows and the number of
warnings logged. -/
def parseFrom (limit : Option Nat) : Nat → List Line → List TraceRecord × Nat
  | _, [] => ([], 0)
  | i, ln :: rest =>
    if truthyLimit limit && decide (limit.getD 0 ≤ i) then ([], 0)
    else
      match ln with
      | Line.record r =>
        let p := parseFrom limit (i + 1) rest
        (r :: p.1, p.2)
      | Line.malformed =>
        let p := parseFrom limit (i + 1) rest
        (p.1, p.2 + 1)

/-- The parsing loop started at line index 0. -/
def parseRows (limit : Option Nat) (lines : List Line) : List TraceRecord × Nat :=
  parseFrom limit 0 lines

/-- The records of the well-formed lines, in input order. -/
def recordsOf (lines : List Line) : List TraceRecord :=
  lines.filterMap (fun ln => match ln with
    | Line.record r => some r
    | Line.malformed => none)

def isMalformed : Line → Bool
  | Line.malformed => true
  | Line.record _ => false

/-- Number of malformed lines. -/
def malformedCount (lines : List Line) : Nat :=
  lines.countP isMalformed

/-- The input lines the parsing loop actually processes: all of them when
no (truthy) limit is configured, otherwise the first `l`. -/
def consumedLines (limit : Option Nat) (lines : List Line) : List Line :=
  match limit with
  | none => lines
  | some l => if l = 0 then lines else lines.take l

/-- The `try/except` around `open(TRACE_FILE)` in both scripts: a failure
to open or read the file is logged and re-raised (it propagates); a
successfully read file is parsed line by line with no further failure. -/
def loadTraceFile (file : Except String (List Line)) (limit : Option Nat) :
    Except String (List TraceRecord × Nat) :=
  match file with
  | Except.error e => Except.error e
  | Except.ok lines => Except.ok (parseRows limit lines)

/-- Parsed command-line arguments of either script. -/
structure Args where
  flatten : Bool
  iterations : Int
  limit : Option Int
  batchSize : Option Int
deriving DecidableEq, Repr

/-- The argument validation of both scripts (braintrust lines 125-130,
langsmith lines 124-129): `parser.error` unless iterations ≥ 1 and any
provided limit/batch-size is ≥ 1. -/
def validArgs (a : Args) : Bool :=
  decide (1 ≤ a.iterations) &&
  (match a.limit with
   | none => true
   | some l => decide (1 ≤ l)) &&
  (match a.batchSize with
   | none => true
   | some b => decide (1 ≤ b))

/-- Observable startup actions of the scripts, in program order. -/
inductive Step where
  | loadEnv : Step
  | checkFile : Step
  | exitMissing : Step
  | parseArgs : Step
  | argsError : Step
  | login : Step
  | openFile : Step
  | connectBackend : Step
deriving DecidableEq, Repr

/-- Startup order of src/load_braintrust.py (lines 84-144): load the .env
file, check that the trace file exists (sys.exit(1) when missing), parse
the CLI arguments, validate them (parser.error exits on a non-positive
value), authenticate with `braintrust.login()`, then open the trace
file. -/
def btStartup (fileExists : Bool) (a : Args) : List Step :=
  Step.loadEnv :: Step.checkFile ::
    (if fileExists then
      Step.parseArgs ::
        (if validArgs a then [Step.login, Step.openFile] else [Step.argsError])
    else [Step.exitMissing])

/-- Startup order of src/load_langsmith.py (lines 82-178): load the .env
file, check that the trace file exists, parse and validate the CLI
arguments, open the trace file, then construct the LangSmith `Client`. -/
def lsStartup (fileExists : Bool) (a : Args) : List Step :=
  Step.loadEnv :: Step.checkFile ::
    (if fileExists then
      Step.parseArgs ::
        (if validArgs a then [Step.openFile, Step.connectBackend] else [Step.argsError])
    else [Step.exitMissing])

/-- The flush count of a successful replay result. -/
def flushCountOf (x : Option (Except String (List Ev × TreeMap))) : Option Nat :=
  match x with
  | some (Except.ok (evs, _)) => some (countFlush evs)
  | _ => none

def isOpenClose : Ev → Bool
  | Ev.openSpan _ => true
  | Ev.closeSpan _ => true
  | _ => false

/-- The spec's worked example: A (root, span_id a), B (child of a,
span_id b), C (child of b, span_id c). -/
def recA : TraceRecord := ⟨"A", "a", some [], "root A", "inA", "outA", [("k", "v")]⟩

def recB : TraceRecord := ⟨"B", "b", some ["a"], "opB", "inB", "outB", []⟩

def recC : TraceRecord := ⟨"C", "c", some ["b"], "opC", "inC", "outC", []⟩

def exRows : List TraceRecord := [recA, recB, recC]

/-- Children map of the worked example, as the indexer produces it. -/
def exCh : ChildMap := [("a", ["B"]), ("b", ["C"])]

/-- Lookup tree of the worked example. -/
def exTree : TreeMap := [("A", recA), ("B", recB), ("C", recC)]

/-- A rank function witnessing that the worked example's parent-to-child
edges are acyclic (each edge strictly decreases the rank). -/
def rankEx : String → Nat :=
  fun s => if s = "A" then 2 else if s = "B" then 1 else 0

/-- Open/close order of replaying the worked example's single root through
the Braintrust pipeline (index with flatten = false, then emit the first
root). -/
def exampleReplayOC : Option (List Ev) :=
  match btIndexF false exRows with
  | Except.error _ => none
  | Except.ok st =>
    match btEmitRoot st.children 3 (buildTree st.rows) (st.roots.headD "") with
    | some (Except.ok (evs, _)) => some (evs.filter isOpenClose)
    | _ => none

/-- A record whose JSON object carries no span_parents key at all. -/
def recNoSP : TraceRecord := ⟨"n1", "s1", none, "opN1", "i1", "o1", []⟩

/-- A second key-less record, for the flatten-mode counterexample. -/
def recNoSP2 : TraceRecord := ⟨"n2", "s2", none, "opN2", "i2", "o2", []⟩

/-- A root record with empty metadata, for the LangSmith replay. -/
def recX : TraceRecord := ⟨"x", "sx", none, "opX", "iX", "oX", []⟩

def trX : TreeMap := [("x", recX)]

/-- A single root record for the flush-cadence instances. -/
def recR : TraceRecord := ⟨"r", "sr", some [], "opR", "i", "o", []⟩

def trR : TreeMap := [("r", recR)]

theorem dlookup_mem {α : Type} :
    ∀ (l : List (String × α)) (k : String) (v : α), dlookup l k = some v → (k, v) ∈ l := by
  intro l
  induction l with
  | nil => intro k v h; simp [dlookup] at h
  | cons p rest ih =>
    intro k v h
    obtain ⟨k0, v0⟩ := p
    by_cases hk : k0 = k
    · subst hk
      simp [dlookup] at h
      subst h
      exact List.mem_cons_self _ _
    · simp [dlookup, hk] at h
      exact List.mem_cons_of_mem _ (ih k v h)

theorem dlookup_dictSet_self {α : Type} :
    ∀ (l : List (String × α)) (k : String) (v : α), dlookup (dictSet l k v) k = some v := by
  intro l
  induction l with
  | nil => intro k v; simp [dictSet, dlookup]
  | cons p rest ih =>
    intro k v
    obtain ⟨k0, v0⟩ := p
    by_cases hk : k0 = k <;> simp [dictSet, dlookup, hk, ih]

theorem dlookup_dictSet_ne {α : Type} :
    ∀ (l : List (String × α)) (k : String) (v : α) (k2 : String), k2 ≠ k →
      dlookup (dictSet l k v) k2 = dlookup l k2 := by
  intro l
  induction l with
  | nil =>
    intro k v k2 hne
    simp [dictSet, dlookup, Ne.symm hne]
  | cons p rest ih =>
    intro k v k2 hne
    obtain ⟨k0, v0⟩ := p
    by_cases hk : k0 = k
    · subst hk
      simp [dictSet, dlookup, Ne.symm hne]
    · simp [dictSet, dlookup, hk, ih _ _ _ hne]

theorem dictGetD_cons {α : Type} (k : String) (v : α) (rest : List (String × α))
    (q : String) (dflt : α) :
    dictGetD ((k, v) :: rest) q dflt = if k = q then v else dictGetD rest q dflt := by
  by_cases h : k = q <;> simp [dictGetD, dlookup, h]

theorem dictGetD_addChild :
    ∀ (ch : ChildMap) (p cid q : String),
      dictGetD (addChild ch p cid) q [] =
        if q = p then dictGetD ch q [] ++ [cid] else dictGetD ch q [] := by
  intro ch
  induction ch with
  | nil =>
    intro p cid q
    show dictGetD [(p, [cid])] q [] = _
    rw [dictGetD_cons]
    by_cases hq : q = p
    · simp [hq, dictGetD, dlookup]
    · simp [hq, Ne.symm hq, dictGetD, dlookup]
  | cons e rest ih =>
    intro p cid q
    obtain ⟨k, v⟩ := e
    by_cases hk : k = p
    · subst hk
      simp only [addChild, eq_self_iff_true, if_true]
      rw [dictGetD_cons, dictGetD_cons]
      by_cases hq : k = q
      · simp [hq]
      · simp [hq, Ne.symm hq]
    · simp only [addChild, if_neg hk]
      rw [dictGetD_cons, dictGetD_cons]
      by_cases hkq : k = q
      · have hqp : ¬ q = p := fun hh => hk (hkq.trans hh)
        simp [hkq, hqp]
      · simp [hkq]
        exact ih p cid q

theorem dictGetD_registerParents :
    ∀ (ps : List String) (ch : ChildMap) (cid q : String),
      dictGetD (registerParents ch ps cid) q [] =
        dictGetD ch q [] ++ List.replicate (ps.count q) cid := by
  intro ps
  induction ps with
  | nil => intro ch cid q; simp [registerParents]
  | cons p rest ih =>
    intro ch cid q
    have hstep : registerParents ch (p :: rest) cid =
        registerParents (addChild ch p cid) rest cid := by
      simp [registerParents, List.foldl]
    rw [hstep, ih, dictGetD_addChild]
    rw [List.count_cons]
    by_cases hq : q = p
    · subst hq
      simp [List.replicate_succ, List.append_assoc]
    · have hpq : ¬ p = q := Ne.symm hq
      have hbeq : (p == q) = false := by simp [hpq]
      simp [hbeq, hq]

theorem btIndexFold_false_char :
    ∀ (rows : List TraceRecord) (st0 : IndexState),
      (∀ r ∈ rows, r.span_parents.isSome) →
      ∃ st, indexFold (btIndexStep false) st0 rows = Except.ok st ∧
        st.roots = st0.roots ++
          (rows.filter (fun r => (r.span_parents.getD []).isEmpty)).map (fun r => r.id) ∧
        ∀ q, dictGetD st.children q [] = dictGetD st0.children q [] ++
          rows.flatMap (fun r => List.replicate ((r.span_parents.getD []).count q) r.id) := by
  intro rows
  induction rows with
  | nil =>
    intro st0 _
    exact ⟨st0, rfl, by simp, by simp⟩
  | cons r rest ih =>
    intro st0 h
    obtain ⟨ps, hps⟩ := Option.isSome_iff_exists.mp (h r (List.mem_cons_self r rest))
    have hrest : ∀ x ∈ rest, x.span_parents.isSome :=
      fun x hx => h x (List.mem_cons_of_mem r hx)
    cases ps with
    | nil =>
      obtain ⟨st, hfold, hroots, hch⟩ := ih
        { st0 with roots := st0.roots ++ [r.id],
                   rows := st0.rows ++ [{ r with span_parents := none }] } hrest
      refine ⟨st, ?_, ?_, ?_⟩
      · simpa [indexFold, btIndexStep, hps] using hfold
      · rw [hroots]; simp [hps]
      · intro q; rw [hch q]; simp [hps]
    | cons p ps2 =>
      obtain ⟨st, hfold, hroots, hch⟩ := ih
        { st0 with children := registerParents st0.children (p :: ps2) r.id,
                   rows := st0.rows ++ [r] } hrest
      refine ⟨st, ?_, ?_, ?_⟩
      · simpa [indexFold, btIndexStep, hps] using hfold
      · rw [hroots]; simp [hps]
      · intro q
        rw [hch q]
        simp only [List.flatMap_cons, hps, Option.getD_some]
        rw [dictGetD_registerParents, List.append_assoc]

theorem btIndexFold_true_char :
    ∀ (rows : List TraceRecord) (st0 : IndexState),
      (∀ r ∈ rows, r.span_parents.isSome) →
      ∃ st, indexFold (btIndexStep true) st0 rows = Except.ok st ∧
        st.roots = st0.roots ++ rows.map (fun r => r.id) ∧
        st.children = st0.children := by
  intro rows
  induction rows with
  | nil => intro st0 _; exact ⟨st0, rfl, by simp, rfl⟩
  | cons r rest ih =>
    intro st0 h
    obtain ⟨ps, hps⟩ := Option.isSome_iff_exists.mp (h r (List.mem_cons_self r rest))
    obtain ⟨st, hfold, hroots, hch⟩ := ih
      { st0 with roots := st0.roots ++ [r.id],
                 rows := st0.rows ++ [{ r with span_parents := none }] }
      (fun x hx => h x (List.mem_cons_of_mem r hx))
    refine ⟨st, ?_, ?_, hch⟩
    · simpa [indexFold, btIndexStep, hps] using hfold
    · rw [hroots]; simp

theorem lsIndexFold_true_char :
    ∀ (rows : List TraceRecord) (st0 : IndexState),
      ∃ st, indexFold (lsIndexStep true) st0 rows = Except.ok st ∧
        st.roots = st0.roots ++ rows.map (fun r => r.id) ∧
        st.children = st0.children := by
  intro rows
  induction rows with
  | nil => intro st0; exact ⟨st0, rfl, by simp, rfl⟩
  | cons r rest ih =>
    intro st0
    obtain ⟨st, hfold, hroots, hch⟩ := ih
      { st0 with roots := st0.roots ++ [r.id],
                 rows := st0.rows ++
                   [match r.span_parents with
                    | none => r
                    | some _ => { r with span_parents := none }] }
    refine ⟨st, ?_, ?_, hch⟩
    · simpa [indexFold, lsIndexStep] using hfold
    · rw [hroots]; simp

theorem indexStep_eq (fl : Bool) (st : IndexState) (row : TraceRecord)
    (h : row.span_parents.isSome) : btIndexStep fl st row = lsIndexStep fl st row := by
  obtain ⟨ps, hps⟩ := Option.isSome_iff_exists.mp h
  cases fl <;> simp [btIndexStep, lsIndexStep, hps]

theorem indexFold_eq :
    ∀ (fl : Bool) (rows : List TraceRecord) (st0 : IndexState),
      (∀ r ∈ rows, r.span_parents.isSome) →
      indexFold (btIndexStep fl) st0 rows = indexFold (lsIndexStep fl) st0 rows := by
  intro fl rows
  induction rows with
  | nil => intro st0 _; rfl
  | cons r rest ih =>
    intro st0 h
    have h1 := indexStep_eq fl st0 r (h r (List.mem_cons_self r rest))
    simp only [indexFold, ← h1]
    cases hbt : btIndexStep fl st0 r with
    | error e => rfl
    | ok st2 => exact ih st2 (fun x hx => h x (List.mem_cons_of_mem r hx))

/-- Claim C3 (corrected): with `flatten = false`, provided every record
carries a `span_parents` key (a record without it raises a KeyError in
both scripts instead of becoming a root — see the counterexample), both
indexers succeed and agree; every record with a non-empty `span_parents`
list is registered in `children[p]` once per declared parent occurrence,
with `children[p]` listing declaring records in first-seen input order,
and (when record ids are unique) such a record does not appear in `roots`;
the records with an (empty) `span_parents` list form `roots` in input
order. -/
theorem tree_reconstruction (rows : List TraceRecord)
    (h : ∀ r ∈ rows, r.span_parents.isSome) :
    ∃ st, btIndexF false rows = Except.ok st ∧ lsIndexF false rows = Except.ok st ∧
      st.roots = (rows.filter (fun r => (r.span_parents.getD []).isEmpty)).map
        (fun r => r.id) ∧
      (∀ q, dictGetD st.children q [] =
        rows.flatMap (fun r => List.replicate ((r.span_parents.getD []).count q) r.id)) ∧
      ∀ r ∈ rows, (r.span_parents.getD []) ≠ [] →
        (∀ p ∈ r.span_parents.getD [], r.id ∈ dictGetD st.children p []) ∧
        ((∀ r2 ∈ rows, r2.id = r.id → r2 = r) → r.id ∉ st.roots) := by
  obtain ⟨st, hfold, hroots, hch⟩ := btIndexFold_false_char rows emptyIndex h
  have hls : lsIndexF false rows = Except.ok st := by
    unfold lsIndexF
    rw [← indexFold_eq false rows emptyIndex h]
    exact hfold
  have hroots2 : st.roots =
      (rows.filter (fun r => (r.span_parents.getD []).isEmpty)).map (fun r => r.id) := by
    rw [hroots]; simp [emptyIndex]
  have hch2 : ∀ q, dictGetD st.children q [] =
      rows.flatMap (fun r => List.replicate ((r.span_parents.getD []).count q) r.id) := by
    intro q; rw [hch q]; simp [emptyIndex, dictGetD, dlookup]
  refine ⟨st, hfold, hls, hroots2, hch2, ?_⟩
  intro r hr hne
  constructor
  · intro p hp
    rw [hch2 p]
    refine List.mem_flatMap.mpr ⟨r, hr, ?_⟩
    refine List.mem_replicate.mpr ⟨?_, rfl⟩
    intro h0
    exact (List.count_eq_zero.mp h0) hp
  · intro huniq hmem
    rw [hroots2] at hmem
    obtain ⟨r2, hr2, hid⟩ := List.mem_map.mp hmem
    obtain ⟨hr2mem, hr2pred⟩ := List.mem_filter.mp hr2
    have : r2 = r := huniq r2 hr2mem hid
    subst this
    rw [List.isEmpty_iff] at hr2pred
    exact hne hr2pred

/-- Claim C3 witness: the corrected statement instantiated on the spec's
three-record example. -/
theorem tree_reconstruction_witness :
    ∃ st, btIndexF false exRows = Except.ok st ∧ lsIndexF false exRows = Except.ok st ∧
      st.roots = (exRows.filter (fun r => (r.span_parents.getD []).isEmpty)).map
        (fun r => r.id) ∧
      (∀ q, dictGetD st.children q [] =
        exRows.flatMap (fun r => List.replicate ((r.span_parents.getD []).count q) r.id)) ∧
      ∀ r ∈ exRows, (r.span_parents.getD []) ≠ [] →
        (∀ p ∈ r.span_parents.getD [], r.id ∈ dictGetD st.children p []) ∧
        ((∀ r2 ∈ exRows, r2.id = r.id → r2 = r) → r.id ∉ st.roots) :=
  tree_reconstruction exRows (by decide)

/-- Claim C3 counterexample: a record whose JSON object has no
`span_parents` key is not placed in `roots` with `flatten = false`; both
scripts raise a KeyError on the unguarded `row["span_parents"]` read, so
the indexing aborts instead of producing a tree index. -/
theorem absent_span_parents_counterexample :
    btIndexF false [recNoSP] = Except.error "KeyError: span_parents" ∧
    lsIndexF false [recNoSP] = Except.error "KeyError: span_parents" := by
  constructor <;> rfl

/-- Claim C5 (corrected): with `flatten = true`, `roots` is all record
ids in input order and `children` stays empty — for the Braintrust script
only when every record carries a `span_parents` key (the unguarded
`del row["span_parents"]` raises a KeyError otherwise — see the
counterexample); the LangSmith script guards the deletion and needs no
such proviso. -/
theorem flatten_indexing (rows : List TraceRecord)
    (h : ∀ r ∈ rows, r.span_parents.isSome) :
    (∃ st, btIndexF true rows = Except.ok st ∧
       st.roots = rows.map (fun r => r.id) ∧ st.children = []) ∧
    ∀ rows2 : List TraceRecord, ∃ st2, lsIndexF true rows2 = Except.ok st2 ∧
       st2.roots = rows2.map (fun r => r.id) ∧ st2.children = [] := by
  constructor
  · obtain ⟨st, hfold, hroots, hch⟩ := btIndexFold_true_char rows emptyIndex h
    refine ⟨st, hfold, ?_, ?_⟩
    · rw [hroots]; simp [emptyIndex]
    · rw [hch]; rfl
  · intro rows2
    obtain ⟨st2, hfold, hroots, hch⟩ := lsIndexFold_true_char rows2 emptyIndex
    refine ⟨st2, hfold, ?_, ?_⟩
    · rw [hroots]; simp [emptyIndex]
    · rw [hch]; rfl

/-- Claim C5 witness: the corrected statement instantiated on the spec's
three-record example. -/
theorem flatten_indexing_witness :
    (∃ st, btIndexF true exRows = Except.ok st ∧
       st.roots = exRows.map (fun r => r.id) ∧ st.children = []) ∧
    ∀ rows2 : List TraceRecord, ∃ st2, lsIndexF true rows2 = Except.ok st2 ∧
       st2.roots = rows2.map (fun r => r.id) ∧ st2.children = [] :=
  flatten_indexing exRows (by decide)

/-- Claim C5 counterexample: with `flatten = true` the Braintrust script
raises a KeyError on a record without a `span_parents` key (the unguarded
`del row["span_parents"]`), so `roots` is not produced for such a record
set, while the LangSmith script indexes it fine. -/
theorem flatten_absent_key_counterexample :
    btIndexF true [recNoSP2] = Except.error "KeyError: span_parents" ∧
    lsIndexF true [recNoSP2] =
      Except.ok ⟨[], ["n2"], [recNoSP2]⟩ := by
  constructor <;> rfl

/-- Claim C10 (confirmed): when every parsed record carries a
`span_parents` key, the tree-indexing logic of the Braintrust script and
of the LangSmith script compute identical results (same roots, same
children, same processed rows) for both values of the flatten policy. -/
theorem indexers_agree (rows : List TraceRecord)
    (h : ∀ r ∈ rows, r.span_parents.isSome) :
    ∀ flatten : Bool, btIndexF flatten rows = lsIndexF flatten rows :=
  fun fl => indexFold_eq fl rows emptyIndex h

/-- Claim C10 witness: both flatten policies on the spec's three-record
example. -/
theorem indexers_agree_witness :
    btIndexF false exRows = lsIndexF false exRows ∧
    btIndexF true exRows = lsIndexF true exRows :=
  ⟨indexers_agree exRows (by decide) false, indexers_agree exRows (by decide) true⟩

theorem recordsOf_cons_rec (r : TraceRecord) (rest : List Line) :
    recordsOf (Line.record r :: rest) = r :: recordsOf rest := by
  simp [recordsOf]

theorem recordsOf_cons_mal (rest : List Line) :
    recordsOf (Line.malformed :: rest) = recordsOf rest := by
  simp [recordsOf]

theorem malformedCount_cons_rec (r : TraceRecord) (rest : List Line) :
    malformedCount (Line.record r :: rest) = malformedCount rest := by
  simp [malformedCount, isMalformed]

theorem malformedCount_cons_mal (rest : List Line) :
    malformedCount (Line.malformed :: rest) = malformedCount rest + 1 := by
  simp [malformedCount, isMalformed, List.countP_cons]

theorem parseFrom_untruthy (limit : Option Nat) (h : truthyLimit limit = false) :
    ∀ (lines : List Line) (i : Nat),
      parseFrom limit i lines = (recordsOf lines, malformedCount lines) := by
  intro lines
  induction lines with
  | nil => intro i; simp [parseFrom, recordsOf, malformedCount]
  | cons ln rest ih =>
    intro i
    cases ln with
    | record r =>
      rw [recordsOf_cons_rec, malformedCount_cons_rec]
      simp only [parseFrom, h, Bool.false_and]
      rw [ih (i + 1)]
      simp
    | malformed =>
      rw [recordsOf_cons_mal, malformedCount_cons_mal]
      simp only [parseFrom, h, Bool.false_and]
      rw [ih (i + 1)]
      simp

theorem parseFrom_take (L : Nat) (hL : 0 < L) :
    ∀ (lines : List Line) (i : Nat), i ≤ L →
      parseFrom (some L) i lines =
        (recordsOf (lines.take (L - i)), malformedCount (lines.take (L - i))) := by
  intro lines
  induction lines with
  | nil => intro i _; simp [parseFrom, recordsOf, malformedCount]
  | cons ln rest ih =>
    intro i hi
    by_cases hiL : L ≤ i
    · have hEq : i = L := le_antisymm hi hiL
      have h0 : ¬ L = 0 := by omega
      have hcond : (truthyLimit (some L) && decide ((some L : Option Nat).getD 0 ≤ i)) =
          true := by
        simp [truthyLimit, h0]
        omega
      simp only [parseFrom, hcond]
      simp [hEq, Nat.sub_self, recordsOf, malformedCount]
    · have hlt : i < L := by omega
      have hcond : (truthyLimit (some L) && decide ((some L : Option Nat).getD 0 ≤ i)) =
          false := by
        simp [truthyLimit]
        omega
      have htake : L - i = (L - (i + 1)) + 1 := by omega
      cases ln with
      | record r =>
        rw [htake, List.take_succ_cons, recordsOf_cons_rec, malformedCount_cons_rec]
        simp only [parseFrom, hcond]
        rw [ih (i + 1) (by omega)]
        simp
      | malformed =>
        rw [htake, List.take_succ_cons, recordsOf_cons_mal, malformedCount_cons_mal]
        simp only [parseFrom, hcond]
        rw [ih (i + 1) (by omega)]
        simp

theorem recordsOf_length_add (lines : List Line) :
    (recordsOf lines).length + malformedCount lines = lines.length := by
  induction lines with
  | nil => rfl
  | cons ln rest ih =>
    cases ln with
    | record r =>
      rw [recordsOf_cons_rec, malformedCount_cons_rec]
      simp only [List.length_cons]
      omega
    | malformed =>
      rw [recordsOf_cons_mal, malformedCount_cons_mal]
      simp only [List.length_cons]
      omega

theorem recordsOf_length_countP (lines : List Line) :
    (recordsOf lines).length = lines.countP (fun ln => !(isMalformed ln)) := by
  induction lines with
  | nil => rfl
  | cons ln rest ih =>
    cases ln with
    | record r =>
      rw [recordsOf_cons_rec, List.countP_cons]
      simp [isMalformed, ih]
    | malformed =>
      rw [recordsOf_cons_mal, List.countP_cons]
      simp [isMalformed, ih]

/-- Claim C6 (confirmed): with a configured (hence validated, positive)
limit L smaller than the number of input lines, the parsing loop of both
scripts processes exactly the first L input lines and stops: its result
equals parsing just those L lines, and the number of parsed records plus
the number of parse-failure warnings is exactly L, so malformed lines
count toward the limit exactly like well-formed ones. -/
theorem limit_semantics (lines : List Line) (L : Nat) (h1 : 1 ≤ L)
    (h2 : L < lines.length) :
    parseRows (some L) lines =
      (recordsOf (lines.take L), malformedCount (lines.take L)) ∧
    (parseRows (some L) lines).1.length + (parseRows (some L) lines).2 = L := by
  have hchar := parseFrom_take L h1 lines 0 (Nat.zero_le L)
  rw [Nat.sub_zero] at hchar
  have hchar2 : parseRows (some L) lines =
      (recordsOf (lines.take L), malformedCount (lines.take L)) := hchar
  refine ⟨hchar2, ?_⟩
  rw [hchar2]
  have hadd := recordsOf_length_add (lines.take L)
  have hlen : (lines.take L).length = L := by
    rw [List.length_take]
    omega
  simp only []
  omega

/-- Claim C6 witness: limit 2 on a three-line input whose first line is
malformed: one record parsed, one warning, two lines consumed. -/
theorem limit_semantics_witness :
    parseRows (some 2) [Line.malformed, Line.record recA, Line.record recB] =
      (recordsOf ([Line.malformed, Line.record recA, Line.record recB].take 2),
       malformedCount ([Line.malformed, Line.record recA, Line.record recB].take 2)) ∧
    (parseRows (some 2) [Line.malformed, Line.record recA, Line.record recB]).1.length +
      (parseRows (some 2) [Line.malformed, Line.record recA, Line.record recB]).2 = 2 :=
  limit_semantics [Line.malformed, Line.record recA, Line.record recB] 2
    (by decide) (by decide)

/-- Claim C7 (confirmed): over the lines the loop actually consumes (all
of them, or the limited prefix), parsing yields exactly the records of
the well-formed lines (N of them) and logs one warning per malformed
line (M warnings), aborting on neither; only a failure to open or read
the input file itself propagates to the caller. -/
theorem malformed_line_tolerance (limit : Option Nat) (lines : List Line) :
    parseRows limit lines =
      (recordsOf (consumedLines limit lines),
       malformedCount (consumedLines limit lines)) ∧
    (parseRows limit lines).1.length =
      (consumedLines limit lines).countP (fun ln => !(isMalformed ln)) ∧
    (parseRows limit lines).2 = malformedCount (consumedLines limit lines) ∧
    loadTraceFile (Except.ok lines) limit = Except.ok (parseRows limit lines) ∧
    ∀ e, loadTraceFile (Except.error e) limit = Except.error e := by
  have hchar : parseRows limit lines =
      (recordsOf (consumedLines limit lines),
       malformedCount (consumedLines limit lines)) := by
    cases limit with
    | none => simpa [consumedLines, parseRows] using parseFrom_untruthy none rfl lines 0
    | some l =>
      by_cases hl : l = 0
      · subst hl
        simpa [consumedLines, parseRows] using parseFrom_untruthy (some 0) rfl lines 0
      · have hk := parseFrom_take l (Nat.pos_of_ne_zero hl) lines 0 (Nat.zero_le l)
        rw [Nat.sub_zero] at hk
        simpa [consumedLines, parseRows, hl] using hk
  refine ⟨hchar, ?_, ?_, rfl, fun e => rfl⟩
  · rw [hchar]
    exact recordsOf_length_countP _
  · rw [hchar]

/-- Claim C8 (corrected): a non-positive iterations, limit, or batch-size
value is rejected with an error before the backend is contacted and
before the trace file is opened or read — but not before all I/O: both
scripts first load the .env file and check the trace file's existence
(see the counterexample), and only then parse and validate arguments. -/
theorem config_validation_order (fe : Bool) (a : Args) (h : validArgs a = false) :
    (fe = true →
      btStartup fe a = [Step.loadEnv, Step.checkFile, Step.parseArgs, Step.argsError] ∧
      lsStartup fe a = [Step.loadEnv, Step.checkFile, Step.parseArgs, Step.argsError]) ∧
    Step.login ∉ btStartup fe a ∧ Step.openFile ∉ btStartup fe a ∧
    Step.openFile ∉ lsStartup fe a ∧ Step.connectBackend ∉ lsStartup fe a := by
  cases fe <;> simp [btStartup, lsStartup, h]

/-- Claim C8 witness: iterations = 0 with the trace file present. -/
theorem config_validation_order_witness :
    ((true : Bool) = true →
      btStartup true ⟨false, 0, none, none⟩ =
        [Step.loadEnv, Step.checkFile, Step.parseArgs, Step.argsError] ∧
      lsStartup true ⟨false, 0, none, none⟩ =
        [Step.loadEnv, Step.checkFile, Step.parseArgs, Step.argsError]) ∧
    Step.login ∉ btStartup true ⟨false, 0, none, none⟩ ∧
    Step.openFile ∉ btStartup true ⟨false, 0, none, none⟩ ∧
    Step.openFile ∉ lsStartup true ⟨false, 0, none, none⟩ ∧
    Step.connectBackend ∉ lsStartup true ⟨false, 0, none, none⟩ :=
  config_validation_order true ⟨false, 0, none, none⟩ (by decide)

/-- Claim C8 counterexample: with iterations = 0 the rejection is not
before any I/O: both scripts load the .env file and perform the
trace-file existence check (filesystem I/O) before the configuration is
rejected, as the startup traces show. -/
theorem validation_after_file_check_counterexample :
    btStartup true ⟨false, 0, none, none⟩ =
      [Step.loadEnv, Step.checkFile, Step.parseArgs, Step.argsError] ∧
    lsStartup true ⟨false, 0, none, none⟩ =
      [Step.loadEnv, Step.checkFile, Step.parseArgs, Step.argsError] := by
  constructor <;> decide

theorem seqEvs_isSome :
    ∀ (l : List (Option (Except String (List Ev)))),
      (∀ x ∈ l, x.isSome) → (seqEvs l).isSome := by
  intro l
  induction l with
  | nil => intro _; rfl
  | cons x rest ih =>
    intro h
    have hx : x.isSome := h x (List.mem_cons_self _ _)
    obtain ⟨y, hy⟩ := Option.isSome_iff_exists.mp hx
    subst hy
    cases y with
    | error e => rfl
    | ok evs =>
      have hrest := ih (fun z hz => h z (List.mem_cons_of_mem _ hz))
      obtain ⟨w, hw⟩ := Option.isSome_iff_exists.mp hrest
      cases w with
      | error e => simp [seqEvs, hw]
      | ok evs2 => simp [seqEvs, hw]

theorem seqEvs_ok_parts :
    ∀ (l : List (Option (Except String (List Ev)))) (evs : List Ev),
      seqEvs l = some (Except.ok evs) →
      ∃ parts : List (List Ev),
        List.Forall₂ (fun x b => x = some (Except.ok b)) l parts ∧
        evs = parts.flatten := by
  intro l
  induction l with
  | nil =>
    intro evs h
    simp [seqEvs] at h
    exact ⟨[], List.Forall₂.nil, by rw [h]; rfl⟩
  | cons x rest ih =>
    intro evs h
    cases x with
    | none => simp [seqEvs] at h
    | some y =>
      cases y with
      | error e => simp [seqEvs] at h
      | ok evs1 =>
        cases hrest : seqEvs rest with
        | none => simp [seqEvs, hrest] at h
        | some z =>
          cases z with
          | error e => simp [seqEvs, hrest] at h
          | ok evs2 =>
            simp only [seqEvs, hrest] at h
            simp at h
            obtain ⟨parts, hf, hflat⟩ := ih evs2 hrest
            refine ⟨evs1 :: parts, List.Forall₂.cons rfl hf, ?_⟩
            simp [← h, hflat]

theorem forall₂_map_left {α β γ : Type} (P : γ → β → Prop) (f : α → γ) :
    ∀ (l : List α) (parts : List β),
      List.Forall₂ P (l.map f) parts →
      List.Forall₂ (fun c b => P (f c) b) l parts := by
  intro l
  induction l with
  | nil =>
    intro parts h
    cases h
    exact List.Forall₂.nil
  | cons c rest ih =>
    intro parts h
    cases h with
    | cons hh ht => exact List.Forall₂.cons hh (ih _ ht)

theorem forall₂_mem_right {α β : Type} {R : α → β → Prop} :
    ∀ {l : List α} {l2 : List β}, List.Forall₂ R l l2 →
      ∀ b ∈ l2, ∃ a ∈ l, R a b := by
  intro l l2 h
  induction h with
  | nil => intro b hb; cases hb
  | cons hh ht ih =>
    intro b hb
    rcases List.mem_cons.mp hb with rfl | hb2
    · exact ⟨_, List.mem_cons_self _ _, hh⟩
    · obtain ⟨a, ha, hr⟩ := ih b hb2
      exact ⟨a, List.mem_cons_of_mem _ ha, hr⟩

theorem seqEvs_flushFree
    (l : List (Option (Except String (List Ev)))) (evs : List Ev)
    (h : seqEvs l = some (Except.ok evs))
    (hall : ∀ x ∈ l, ∀ e2, x = some (Except.ok e2) → Ev.flushEv ∉ e2) :
    Ev.flushEv ∉ evs := by
  obtain ⟨parts, hf, hflat⟩ := seqEvs_ok_parts l evs h
  subst hflat
  intro hmem
  obtain ⟨part, hpart, hin⟩ := List.mem_flatten.mp hmem
  obtain ⟨x, hx, hxeq⟩ := forall₂_mem_right hf part hpart
  exact hall x hx part hxeq hin

theorem log_child_span_flushFree (ch : ChildMap) (tree : TreeMap) :
    ∀ (fuel : Nat) (nodeId : String) (evs : List Ev),
      log_child_span ch tree fuel nodeId = some (Except.ok evs) →
      Ev.flushEv ∉ evs := by
  intro fuel
  induction fuel with
  | zero => intro nodeId evs h; simp [log_child_span] at h
  | succ n ih =>
    intro nodeId evs h
    cases hlk : dlookup tree nodeId with
    | none => simp [log_child_span, hlk] at h
    | some row =>
      cases hseq : seqEvs ((dictGetD ch row.span_id []).map
          (fun c => log_child_span ch tree n c)) with
      | none => simp [log_child_span, hlk, hseq] at h
      | some z =>
        cases z with
        | error e => simp [log_child_span, hlk, hseq] at h
        | ok body =>
          simp only [log_child_span, hlk, hseq] at h
          simp at h
          have hbody : Ev.flushEv ∉ body := by
            refine seqEvs_flushFree _ _ hseq ?_
            intro x hx e2 hxe
            obtain ⟨c, hc, rfl⟩ := List.mem_map.mp hx
            exact ih c e2 hxe
          intro hmem
          rw [← h] at hmem
          simp [List.mem_append] at hmem
          exact hbody hmem

theorem btEmitRoot_flushFree (ch : ChildMap) (fuel : Nat) (tree : TreeMap)
    (rootId : String) (evs : List Ev) (tree2 : TreeMap)
    (h : btEmitRoot ch fuel tree rootId = some (Except.ok (evs, tree2))) :
    Ev.flushEv ∉ evs := by
  cases hlk : dlookup tree rootId with
  | none => simp [btEmitRoot, hlk] at h
  | some row =>
    cases hseq : seqEvs ((dictGetD ch row.span_id []).map
        (fun c => log_child_span ch
          (dictSet tree rootId
            { row with metadata := dictSet row.metadata "model" DEFAULT_MODEL })
          fuel c)) with
    | none => simp [btEmitRoot, hlk, hseq] at h
    | some z =>
      cases z with
      | error e => simp [btEmitRoot, hlk, hseq] at h
      | ok body =>
        simp only [btEmitRoot, hlk, hseq] at h
        simp at h
        have hbody : Ev.flushEv ∉ body := by
          refine seqEvs_flushFree _ _ hseq ?_
          intro x hx e2 hxe
          obtain ⟨c, hc, rfl⟩ := List.mem_map.mp hx
          exact log_child_span_flushFree _ _ fuel c e2 hxe
        intro hmem
        rw [← h.1] at hmem
        simp [List.mem_append] at hmem
        exact hbody hmem

theorem lsEmitRoot_flushFree (ch : ChildMap) (fuel : Nat) (tree : TreeMap)
    (rootId : String) (evs : List Ev) (tree2 : TreeMap)
    (h : lsEmitRoot ch fuel tree rootId = some (Except.ok (evs, tree2))) :
    Ev.flushEv ∉ evs := by
  cases hlk : dlookup tree rootId with
  | none => simp [lsEmitRoot, hlk] at h
  | some row =>
    cases hseq : seqEvs ((dictGetD ch row.span_id []).map
        (fun c => log_child_span ch tree fuel c)) with
    | none => simp [lsEmitRoot, hlk, hseq] at h
    | some z =>
      cases z with
      | error e => simp [lsEmitRoot, hlk, hseq] at h
      | ok body =>
        simp only [lsEmitRoot, hlk, hseq] at h
        simp at h
        have hbody : Ev.flushEv ∉ body := by
          refine seqEvs_flushFree _ _ hseq ?_
          intro x hx e2 hxe
          obtain ⟨c, hc, rfl⟩ := List.mem_map.mp hx
          exact log_child_span_flushFree _ _ fuel c e2 hxe
        intro hmem
        rw [← h.1] at hmem
        simp [List.mem_append] at hmem
        exact hbody hmem

theorem log_child_span_fuel (ch : ChildMap) (tree : TreeMap) (rank : String → Nat)
    (hr : ∀ p ∈ tree, ∀ c ∈ dictGetD ch p.2.span_id [], rank c < rank p.1) :
    ∀ (fuel : Nat) (nodeId : String), rank nodeId < fuel →
      (log_child_span ch tree fuel nodeId).isSome := by
  intro fuel
  induction fuel with
  | zero => intro nodeId h; exact absurd h (Nat.not_lt_zero _)
  | succ n ih =>
    intro nodeId hn
    cases hlk : dlookup tree nodeId with
    | none => simp [log_child_span, hlk]
    | some row =>
      have hmem := dlookup_mem tree nodeId row hlk
      have hall : ∀ x ∈ (dictGetD ch row.span_id []).map
          (fun c => log_child_span ch tree n c), x.isSome := by
        intro x hx
        obtain ⟨c, hc, rfl⟩ := List.mem_map.mp hx
        have hlt : rank c < rank nodeId := hr (nodeId, row) hmem c hc
        exact ih c (by omega)
      have hsome := seqEvs_isSome _ hall
      obtain ⟨z, hz⟩ := Option.isSome_iff_exists.mp hsome
      cases z with
      | error e => simp [log_child_span, hlk, hz]
      | ok body => simp [log_child_span, hlk, hz]

/-- Claim C9 (confirmed): whenever the parent-to-child edge relation —
from a record (keyed by its id in `tree`) to the ids registered in
`children` under that record's `span_id` — admits a strictly decreasing
rank (i.e. is acyclic), the recursive child-emission procedure
`log_child_span` terminates on every starting node (enough fuel makes it
return), even though the source has no visited-set or cycle guard. -/
theorem acyclic_replay_terminates (ch : ChildMap) (tree : TreeMap)
    (rank : String → Nat)
    (hr : ∀ p ∈ tree, ∀ c ∈ dictGetD ch p.2.span_id [], rank c < rank p.1) :
    ∀ nodeId : String, ∃ fuel : Nat, (log_child_span ch tree fuel nodeId).isSome :=
  fun nodeId => ⟨rank nodeId + 1,
    log_child_span_fuel ch tree rank hr (rank nodeId + 1) nodeId (by omega)⟩

/-- Claim C9 witness: the three-node example chain with rank A=2, B=1,
C=0. -/
theorem acyclic_replay_terminates_witness :
    ∃ fuel : Nat, (log_child_span exCh exTree fuel "A").isSome :=
  acyclic_replay_terminates exCh exTree rankEx (by decide) "A"

/-- Claim C2 (corrected): before attaching the root's payload, the
Braintrust replay injects the fixed tag model = gpt-4o into the root
record's metadata (mutating only that root's entry in the lookup tree,
so no non-root record's metadata is ever touched); the LangSmith replay
attaches the root's metadata unchanged and injects nothing (see the
counterexample).  Child emission attaches input/output only and mutates
no record in either script. -/
theorem root_metadata_injection (ch : ChildMap) (tree : TreeMap) (fuel : Nat)
    (rootId : String) (row : TraceRecord)
    (hrow : dlookup tree rootId = some row) :
    (∀ evs tree2, btEmitRoot ch fuel tree rootId = some (Except.ok (evs, tree2)) →
      (∃ body, evs = Ev.openSpan ROOT_SPAN_NAME ::
        Ev.logRoot row.input row.output (dictSet row.metadata "model" DEFAULT_MODEL) ::
        (body ++ [Ev.closeSpan ROOT_SPAN_NAME])) ∧
      dlookup tree2 rootId =
        some { row with metadata := dictSet row.metadata "model" DEFAULT_MODEL } ∧
      (∀ id2, id2 ≠ rootId → dlookup tree2 id2 = dlookup tree id2)) ∧
    (∀ evs tree2, lsEmitRoot ch fuel tree rootId = some (Except.ok (evs, tree2)) →
      (∃ body, evs = Ev.openSpan ROOT_RUN_NAME ::
        Ev.logRoot row.input row.output row.metadata ::
        (body ++ [Ev.closeSpan ROOT_RUN_NAME])) ∧
      tree2 = tree) := by
  constructor
  · intro evs tree2 h
    cases hseq : seqEvs ((dictGetD ch row.span_id []).map
        (fun c => log_child_span ch
          (dictSet tree rootId
            { row with metadata := dictSet row.metadata "model" DEFAULT_MODEL })
          fuel c)) with
    | none => simp [btEmitRoot, hrow, hseq] at h
    | some z =>
      cases z with
      | error e => simp [btEmitRoot, hrow, hseq] at h
      | ok body =>
        simp only [btEmitRoot, hrow, hseq] at h
        simp at h
        obtain ⟨hevs, htree⟩ := h
        refine ⟨⟨body, hevs.symm⟩, ?_, ?_⟩
        · rw [← htree]
          exact dlookup_dictSet_self tree rootId _
        · intro id2 hne
          rw [← htree]
          exact dlookup_dictSet_ne tree rootId _ id2 hne
  · intro evs tree2 h
    cases hseq : seqEvs ((dictGetD ch row.span_id []).map
        (fun c => log_child_span ch tree fuel c)) with
    | none => simp [lsEmitRoot, hrow, hseq] at h
    | some z =>
      cases z with
      | error e => simp [lsEmitRoot, hrow, hseq] at h
      | ok body =>
        simp only [lsEmitRoot, hrow, hseq] at h
        simp at h
        obtain ⟨hevs, htree⟩ := h
        exact ⟨⟨body, hevs.symm⟩, htree.symm⟩

/-- Claim C2 witness: the corrected statement instantiated on a one-node
tree with fuel 1 (both emitters succeed there). -/
theorem root_metadata_injection_witness :
    (∀ evs tree2, btEmitRoot [] 1 trX "x" = some (Except.ok (evs, tree2)) →
      (∃ body, evs = Ev.openSpan ROOT_SPAN_NAME ::
        Ev.logRoot recX.input recX.output (dictSet recX.metadata "model" DEFAULT_MODEL) ::
        (body ++ [Ev.closeSpan ROOT_SPAN_NAME])) ∧
      dlookup tree2 "x" =
        some { recX with metadata := dictSet recX.metadata "model" DEFAULT_MODEL } ∧
      (∀ id2, id2 ≠ "x" → dlookup tree2 id2 = dlookup trX id2)) ∧
    (∀ evs tree2, lsEmitRoot [] 1 trX "x" = some (Except.ok (evs, tree2)) →
      (∃ body, evs = Ev.openSpan ROOT_RUN_NAME ::
        Ev.logRoot recX.input recX.output recX.metadata ::
        (body ++ [Ev.closeSpan ROOT_RUN_NAME])) ∧
      tree2 = trX) :=
  root_metadata_injection [] trX 1 "x" recX (by decide)

/-- Claim C2 counterexample: the LangSmith replay of a root whose
metadata is empty attaches the metadata unchanged — still empty, hence
containing no model tag — and leaves the tree unmutated, refuting the
claim that every replayed root gets a model tag injected. -/
theorem langsmith_no_model_tag_counterexample :
    lsEmitRoot [] 1 trX "x" =
      some (Except.ok ([Ev.openSpan "Chat Pipeline", Ev.logRoot "iX" "oX" [],
        Ev.closeSpan "Chat Pipeline"], trX)) ∧
    dlookup ([] : List (String × String)) "model" = none := by
  constructor <;> rfl

/-- Claim C4 (confirmed): a successful child emission always opens the
node, attaches its payload, emits its children's full event lists in
child order fully inside the open/close pair, and closes last (pre-order
open, post-order close); on the spec's three-record chain A → B → C the
replayed root emits open(A), open(B), open(C), close(C), close(B),
close(A). -/
theorem depth_first_replay_order (ch : ChildMap) (tree : TreeMap) (fuel : Nat)
    (nodeId : String) (row : TraceRecord) (evs : List Ev)
    (hrow : dlookup tree nodeId = some row)
    (hevs : log_child_span ch tree (fuel + 1) nodeId = some (Except.ok evs)) :
    (∃ bodies : List (List Ev),
      List.Forall₂ (fun cid b => log_child_span ch tree fuel cid = some (Except.ok b))
        (dictGetD ch row.span_id []) bodies ∧
      evs = Ev.openSpan row.name :: Ev.logChild row.input row.output ::
        (bodies.flatten ++ [Ev.closeSpan row.name])) ∧
    exampleReplayOC = some [Ev.openSpan "Chat Pipeline", Ev.openSpan "opB",
      Ev.openSpan "opC", Ev.closeSpan "opC", Ev.closeSpan "opB",
      Ev.closeSpan "Chat Pipeline"] := by
  constructor
  · cases hseq : seqEvs ((dictGetD ch row.span_id []).map
        (fun c => log_child_span ch tree fuel c)) with
    | none => simp [log_child_span, hrow, hseq] at hevs
    | some z =>
      cases z with
      | error e => simp [log_child_span, hrow, hseq] at hevs
      | ok body =>
        simp only [log_child_span, hrow, hseq] at hevs
        simp at hevs
        obtain ⟨parts, hf, hflat⟩ := seqEvs_ok_parts _ body hseq
        refine ⟨parts, forall₂_map_left _ _ _ _ hf, ?_⟩
        rw [← hevs, hflat]
  · decide

/-- Claim C4 witness: the structural statement instantiated at node B of
the example chain. -/
theorem depth_first_replay_order_witness :
    (∃ bodies : List (List Ev),
      List.Forall₂ (fun cid b => log_child_span exCh exTree 1 cid = some (Except.ok b))
        (dictGetD exCh recB.span_id []) bodies ∧
      [Ev.openSpan "opB", Ev.logChild "inB" "outB", Ev.openSpan "opC",
        Ev.logChild "inC" "outC", Ev.closeSpan "opC", Ev.closeSpan "opB"] =
        Ev.openSpan recB.name :: Ev.logChild recB.input recB.output ::
          (bodies.flatten ++ [Ev.closeSpan recB.name])) ∧
    exampleReplayOC = some [Ev.openSpan "Chat Pipeline", Ev.openSpan "opB",
      Ev.openSpan "opC", Ev.closeSpan "opC", Ev.closeSpan "opB",
      Ev.closeSpan "Chat Pipeline"] :=
  depth_first_replay_order exCh exTree 1 "B" recB
    [Ev.openSpan "opB", Ev.logChild "inB" "outB", Ev.openSpan "opC",
      Ev.logChild "inC" "outC", Ev.closeSpan "opC", Ev.closeSpan "opB"]
    (by decide) (by rfl)

theorem countFlush_of_free (evs : List Ev) (h : Ev.flushEv ∉ evs) :
    countFlush evs = 0 := by
  rw [countFlush, List.countP_eq_zero]
  intro a ha hbeq
  rw [beq_iff_eq] at hbeq
  subst hbeq
  exact h ha

theorem replayIterAux_count
    (emitR : TreeMap → String → Option (Except String (List Ev × TreeMap)))
    (batch : Option Nat)
    (hff : ∀ tree r evs tree2, emitR tree r = some (Except.ok (evs, tree2)) →
      Ev.flushEv ∉ evs) :
    ∀ (roots : List String) (idx : Nat) (tree : TreeMap) (evs : List Ev)
      (tree3 : TreeMap),
      replayIterAux emitR batch idx roots tree = some (Except.ok (evs, tree3)) →
      countFlush evs = interimCount batch idx roots.length := by
  intro roots
  induction roots with
  | nil =>
    intro idx tree evs tree3 h
    simp [replayIterAux] at h
    rw [h.1]
    rfl
  | cons r rest ih =>
    intro idx tree evs tree3 h
    cases h1 : emitR tree r with
    | none => simp [replayIterAux, h1] at h
    | some z =>
      cases z with
      | error e => simp [replayIterAux, h1] at h
      | ok p =>
        obtain ⟨evs1, tree2⟩ := p
        cases h2 : replayIterAux emitR batch (idx + 1) rest tree2 with
        | none => simp [replayIterAux, h1, h2] at h
        | some w =>
          cases w with
          | error e => simp [replayIterAux, h1, h2] at h
          | ok q =>
            obtain ⟨evs2, tree4⟩ := q
            simp only [replayIterAux, h1, h2] at h
            simp at h
            obtain ⟨hevs, htr⟩ := h
            rw [← hevs, countFlush, List.countP_append, List.countP_append]
            have hz1 : countFlush evs1 = 0 :=
              countFlush_of_free evs1 (hff tree r evs1 tree2 h1)
            have hc2 : countFlush evs2 = interimCount batch (idx + 1) rest.length :=
              ih (idx + 1) tree2 evs2 tree4 h2
            rw [countFlush] at hz1 hc2
            rw [hz1, hc2]
            simp only [List.length_cons, interimCount]
            by_cases hfc : flushCond batch (idx + 1) = true
            · simp [hfc, List.countP_cons]
            · simp [hfc]

theorem btReplayAux_count (ch : ChildMap) (batch : Option Nat) (fuel : Nat)
    (roots : List String) :
    ∀ (n : Nat) (tree : TreeMap) (evs : List Ev) (tree2 : TreeMap),
      btReplayAux ch batch fuel roots n tree = some (Except.ok (evs, tree2)) →
      countFlush evs = n * interimCount batch 0 roots.length := by
  intro n
  induction n with
  | zero =>
    intro tree evs tree2 h
    simp [btReplayAux] at h
    rw [h.1]
    simp [countFlush]
  | succ m ih =>
    intro tree evs tree2 h
    cases h1 : replayIterAux (btEmitRoot ch fuel) batch 0 roots tree with
    | none => simp [btReplayAux, h1] at h
    | some z =>
      cases z with
      | error e => simp [btReplayAux, h1] at h
      | ok p =>
        obtain ⟨evs1, tr2⟩ := p
        cases h2 : btReplayAux ch batch fuel roots m tr2 with
        | none => simp [btReplayAux, h1, h2] at h
        | some w =>
          cases w with
          | error e => simp [btReplayAux, h1, h2] at h
          | ok q =>
            obtain ⟨evs2, tr3⟩ := q
            simp only [btReplayAux, h1, h2] at h
            simp at h
            obtain ⟨hevs, _⟩ := h
            rw [← hevs, countFlush, List.countP_append]
            have hc1 := replayIterAux_count (btEmitRoot ch fuel) batch
              (fun t r e t2 hh => btEmitRoot_flushFree ch fuel t r e t2 hh)
              roots 0 tree evs1 tr2 h1
            have hc2 := ih tr2 evs2 tr3 h2
            rw [countFlush] at hc1 hc2
            rw [hc1, hc2]
            ring

theorem lsReplayAux_count (ch : ChildMap) (batch : Option Nat) (fuel : Nat)
    (roots : List String) :
    ∀ (n : Nat) (tree : TreeMap) (evs : List Ev) (tree2 : TreeMap),
      lsReplayAux ch batch fuel roots n tree = some (Except.ok (evs, tree2)) →
      countFlush evs = n * (interimCount batch 0 roots.length + 1) := by
  intro n
  induction n with
  | zero =>
    intro tree evs tree2 h
    simp [lsReplayAux] at h
    rw [h.1]
    simp [countFlush]
  | succ m ih =>
    intro tree evs tree2 h
    cases h1 : replayIterAux (lsEmitRoot ch fuel) batch 0 roots tree with
    | none => simp [lsReplayAux, h1] at h
    | some z =>
      cases z with
      | error e => simp [lsReplayAux, h1] at h
      | ok p =>
        obtain ⟨evs1, tr2⟩ := p
        cases h2 : lsReplayAux ch batch fuel roots m tr2 with
        | none => simp [lsReplayAux, h1, h2] at h
        | some w =>
          cases w with
          | error e => simp [lsReplayAux, h1, h2] at h
          | ok q =>
            obtain ⟨evs2, tr3⟩ := q
            simp only [lsReplayAux, h1, h2] at h
            simp at h
            obtain ⟨hevs, _⟩ := h
            rw [← hevs, countFlush, List.countP_append, List.countP_cons]
            have hc1 := replayIterAux_count (lsEmitRoot ch fuel) batch
              (fun t r e t2 hh => lsEmitRoot_flushFree ch fuel t r e t2 hh)
              roots 0 tree evs1 tr2 h1
            have hc2 := ih tr2 evs2 tr3 h2
            rw [countFlush] at hc1 hc2
            rw [hc1, hc2]
            simp
            ring

theorem interimCount_shift (B : Nat) (hB : 1 ≤ B) :
    ∀ (n idx : Nat), interimCount (some B) idx n = (idx + n) / B - idx / B := by
  intro n
  induction n with
  | zero => intro idx; simp [interimCount]
  | succ m ih =>
    intro idx
    rw [interimCount, ih (idx + 1)]
    have hplus : idx + (m + 1) = (idx + 1) + m := by omega
    rw [hplus]
    by_cases hdvd : B ∣ (idx + 1)
    · have hmod : (idx + 1) % B = 0 := Nat.dvd_iff_mod_eq_zero.mp hdvd
      have hfc : flushCond (some B) (idx + 1) = true := by
        simp [flushCond, hmod]
        omega
      rw [hfc]
      have hsucc : (idx + 1) / B = idx / B + 1 := by
        rw [Nat.succ_div, if_pos hdvd]
      have hmono : (idx + 1) / B ≤ (idx + 1 + m) / B :=
        Nat.div_le_div_right (by omega)
      rw [hsucc] at hmono
      rw [hsucc]
      simp only [eq_self_iff_true, if_true]
      omega
    · have hmod : ¬ (idx + 1) % B = 0 :=
        fun hcontra => hdvd (Nat.dvd_iff_mod_eq_zero.mpr hcontra)
      have hbeq : ((idx + 1) % B == 0) = false := by
        simp [hmod]
      have hfc : flushCond (some B) (idx + 1) = false := by
        simp [flushCond, hbeq]
      rw [hfc]
      have hsucc : (idx + 1) / B = idx / B := by
        rw [Nat.succ_div, if_neg hdvd]
        omega
      rw [hsucc]
      simp

theorem interimCount_div (B : Nat) (hB : 1 ≤ B) (K : Nat) :
    interimCount (some B) 0 K = K / B := by
  rw [interimCount_shift B hB K 0]
  simp

/-- Claim C1 (corrected): with a configured batch size B (validated
positive) and K roots replayed, each iteration of both scripts requests
an interim flush exactly floor(K/B) times — precisely after the roots
whose 1-based index within the iteration is a multiple of B, the counter
restarting each iteration.  But only the LangSmith script additionally
requests one unconditional flush after each iteration; the Braintrust
script requests its single unconditional flush once, after the last
iteration (see the counterexample).  Totals: iterations·floor(K/B) + 1
flush requests for Braintrust, iterations·(floor(K/B) + 1) for
LangSmith. -/
theorem batch_flush_cadence (ch : ChildMap) (B fuel iters : Nat)
    (roots : List String) (tree : TreeMap) (hB : 1 ≤ B) :
    (∀ evs tree2, btReplay ch (some B) fuel iters roots tree =
        some (Except.ok (evs, tree2)) →
      countFlush evs = iters * (roots.length / B) + 1) ∧
    (∀ evs tree2, lsReplay ch (some B) fuel iters roots tree =
        some (Except.ok (evs, tree2)) →
      countFlush evs = iters * (roots.length / B + 1)) := by
  constructor
  · intro evs tree2 h
    cases haux : btReplayAux ch (some B) fuel roots iters tree with
    | none => simp [btReplay, haux] at h
    | some z =>
      cases z with
      | error e => simp [btReplay, haux] at h
      | ok p =>
        obtain ⟨evs1, tr⟩ := p
        simp only [btReplay, haux] at h
        simp at h
        obtain ⟨hevs, _⟩ := h
        rw [← hevs, countFlush, List.countP_append]
        have hc := btReplayAux_count ch (some B) fuel roots iters tree evs1 tr haux
        rw [countFlush] at hc
        rw [hc, interimCount_div B hB]
        simp [List.countP_cons]
  · intro evs tree2 h
    have hc := lsReplayAux_count ch (some B) fuel roots iters tree evs tree2 h
    rw [hc, interimCount_div B hB]

/-- Claim C1 witness: one iteration, one root, batch size 2: no interim
flush and one unconditional flush in each script. -/
theorem batch_flush_cadence_witness :
    countFlush [Ev.openSpan "Chat Pipeline",
      Ev.logRoot "i" "o" [("model", "gpt-4o")], Ev.closeSpan "Chat Pipeline",
      Ev.flushEv] = 1 * ((["r"] : List String).length / 2) + 1 ∧
    countFlush [Ev.openSpan "Chat Pipeline", Ev.logRoot "i" "o" [],
      Ev.closeSpan "Chat Pipeline", Ev.flushEv] =
      1 * ((["r"] : List String).length / 2 + 1) :=
  ⟨(batch_flush_cadence [] 2 1 1 ["r"] trR (by decide)).1 _ _ (by rfl),
   (batch_flush_cadence [] 2 1 1 ["r"] trR (by decide)).2 _ _ (by rfl)⟩

/-- Claim C1 counterexample: two iterations, batch size 5, one root.
With floor(1/5) = 0 interim flushes, the claim ("one unconditional
flush after each iteration completes") predicts 2 flush requests for
either script; the Braintrust replay issues only 1 (its unconditional
flush comes once, after all iterations), while the LangSmith replay
issues 2. -/
theorem braintrust_final_flush_counterexample :
    flushCountOf (btReplay [] (some 5) 1 2 ["r"] trR) = some 1 ∧
    flushCountOf (lsReplay [] (some 5) 1 2 ["r"] trR) = some 2 ∧
    (1 : Nat) ≠ 2 * ((1 : Nat) / 5) + 2 := by
  refine ⟨?_, ?_, ?_⟩ <;> decide

end BrainstoreBench
